import Mathlib

/-!
Verification of the structural-comparison core of the `compare-tool` repository.

Shallow embedding of:
* `src/lib/convert.ts`  — the report normalizer (`generateUniqueKey`,
  `mergeOperation`, `analyzeJob`, `analyzeXmlReport`);
* `src/lib/compare.ts`  — the latest diff/similarity engine (`compareObjects`);
* `src/unnamed/part_000` — an earlier revision of `compareObjects`;
* `src/App.tsx` and the first file of `src/unnamed/part_001` — the two
  revisions of the per-node classifier `compareValues`.

JSON values are modelled as finite trees (`Json`): JavaScript objects become
association lists of string keys in insertion order (a real JS object never has
duplicate keys), arrays become lists, and JSON numbers are modelled as
integers (none of the verified claims involves fractional numerics).  The
identity-keyed `visited` sets used by `compare.ts` are dropped: on tree-shaped
values (the output of `JSON.parse`, which has no aliasing and no cycles) the
identity test never fires, and distinct-but-equal subtrees are, as in the
source, counted separately.
-/

inductive Json where
  | null : Json
  | bool (b : Bool) : Json
  | num (n : Int) : Json
  | str (s : String) : Json
  | arr (items : List Json) : Json
  | obj (fields : List (String × Json)) : Json

/-! Structural (constructor-wise) equality for `Json`, used to register a
`DecidableEq` instance; the deriving handler does not support this nested
inductive. -/

mutual

def jsonBeq : Json → Json → Bool
  | .null, .null => true
  | .bool a, .bool b => a == b
  | .num a, .num b => a == b
  | .str a, .str b => a == b
  | .arr xs, .arr ys => jsonBeqList xs ys
  | .obj fs, .obj gs => jsonBeqFields fs gs
  | _, _ => false

def jsonBeqList : List Json → List Json → Bool
  | [], [] => true
  | x :: xs, y :: ys => jsonBeq x y && jsonBeqList xs ys
  | _, _ => false

def jsonBeqFields : List (String × Json) → List (String × Json) → Bool
  | [], [] => true
  | (k, v) :: fs, (k2, v2) :: gs => k == k2 && jsonBeq v v2 && jsonBeqFields fs gs
  | _, _ => false

end

mutual

theorem jsonBeq_iff : ∀ a b : Json, jsonBeq a b = true ↔ a = b
  | .null, .null => by simp [jsonBeq]
  | .bool a, .bool b => by simp [jsonBeq]
  | .num a, .num b => by simp [jsonBeq]
  | .str a, .str b => by simp [jsonBeq]
  | .arr xs, .arr ys => by simp [jsonBeq, jsonBeqList_iff xs ys]
  | .obj fs, .obj gs => by simp [jsonBeq, jsonBeqFields_iff fs gs]
  | .null, .bool _ | .null, .num _ | .null, .str _ | .null, .arr _ | .null, .obj _
  | .bool _, .null | .bool _, .num _ | .bool _, .str _ | .bool _, .arr _ | .bool _, .obj _
  | .num _, .null | .num _, .bool _ | .num _, .str _ | .num _, .arr _ | .num _, .obj _
  | .str _, .null | .str _, .bool _ | .str _, .num _ | .str _, .arr _ | .str _, .obj _
  | .arr _, .null | .arr _, .bool _ | .arr _, .num _ | .arr _, .str _ | .arr _, .obj _
  | .obj _, .null | .obj _, .bool _ | .obj _, .num _ | .obj _, .str _ | .obj _, .arr _ => by
      simp [jsonBeq]

theorem jsonBeqList_iff : ∀ xs ys : List Json, jsonBeqList xs ys = true ↔ xs = ys
  | [], [] => by simp [jsonBeqList]
  | x :: xs, y :: ys => by
      simp [jsonBeqList, jsonBeq_iff x y, jsonBeqList_iff xs ys]
  | [], _ :: _ => by simp [jsonBeqList]
  | _ :: _, [] => by simp [jsonBeqList]

theorem jsonBeqFields_iff : ∀ fs gs : List (String × Json), jsonBeqFields fs gs = true ↔ fs = gs
  | [], [] => by simp [jsonBeqFields]
  | (k, v) :: fs, (k2, v2) :: gs => by
      simp [jsonBeqFields, jsonBeq_iff v v2, jsonBeqFields_iff fs gs, and_assoc]
  | [], _ :: _ => by simp [jsonBeqFields]
  | _ :: _, [] => by simp [jsonBeqFields]

end

instance : DecidableEq Json := fun a b => decidable_of_iff _ (jsonBeq_iff a b)

instance {ε α : Type} [DecidableEq ε] [DecidableEq α] : DecidableEq (Except ε α) := fun a b =>
  match a, b with
  | .ok x, .ok y => decidable_of_iff (x = y) (by simp)
  | .error x, .error y => decidable_of_iff (x = y) (by simp)
  | .ok _, .error _ => isFalse (by simp)
  | .error _, .ok _ => isFalse (by simp)

/-- First-match association-list lookup: the model of indexing a JS object
(`o[key]`, yielding `undefined` when the key is not an own property). -/
def lookupField {α : Type} (k : String) : List (String × α) → Option α
  | [] => none
  | (k2, v) :: rest => if k2 = k then some v else lookupField k rest

/-! Size measure on `Json`, used for the termination of functions that walk
two documents in lock-step (the source recursions are not structural). -/

mutual

def jsize : Json → Nat
  | .null => 1
  | .bool _ => 1
  | .num _ => 1
  | .str _ => 1
  | .arr xs => 1 + jsizeList xs
  | .obj fs => 1 + jsizeFields fs

def jsizeList : List Json → Nat
  | [] => 0
  | x :: xs => jsize x + jsizeList xs

def jsizeFields : List (String × Json) → Nat
  | [] => 0
  | (_, v) :: rest => 1 + jsize v + jsizeFields rest

end

def osize : Option Json → Nat
  | none => 0
  | some j => jsize j

theorem jsize_pos : ∀ j : Json, 1 ≤ jsize j
  | .null | .bool _ | .num _ | .str _ => le_refl 1
  | .arr _ => by simp [jsize]
  | .obj _ => by simp [jsize]

theorem osize_lookupField_le (k : String) :
    ∀ fs : List (String × Json), osize (lookupField k fs) ≤ jsizeFields fs
  | [] => by simp [lookupField, osize]
  | (k2, v) :: rest => by
      simp only [lookupField, jsizeFields]
      split
      · simp [osize]; omega
      · have := osize_lookupField_le k rest
        omega

/-! The model of lodash's `_.isEqual` on JSON-like values: deep equality that
compares objects by key sets (key order irrelevant, as `_.isEqual` does) and
arrays positionally.  Recursion is on the first argument. -/

mutual

def jsonEq : Json → Json → Bool
  | .null, .null => true
  | .bool a, .bool b => a == b
  | .num a, .num b => a == b
  | .str a, .str b => a == b
  | .arr xs, .arr ys => jsonEqList xs ys
  | .obj fs, .obj gs => fs.length == gs.length && jsonEqFields fs gs
  | _, _ => false

def jsonEqList : List Json → List Json → Bool
  | [], [] => true
  | x :: xs, y :: ys => jsonEq x y && jsonEqList xs ys
  | _, _ => false

def jsonEqFields : List (String × Json) → List (String × Json) → Bool
  | [], _ => true
  | (k, v) :: rest, ys =>
      (match lookupField k ys with
       | some w => jsonEq v w
       | none => false) && jsonEqFields rest ys

end

/-- `_.isEqual` lifted to possibly-absent values (`undefined` on either side):
`isEqual(undefined, undefined)` is `true`, `undefined` never equals a present
value. -/
def jsonEqOpt : Option Json → Option Json → Bool
  | none, none => true
  | some a, some b => jsonEq a b
  | _, _ => false

/-! ### Decimal rendering of natural numbers

`generateUniqueKey` in `src/lib/convert.ts` builds candidate keys with the
template literal `` `${baseKey}_${counter}` ``; the number-to-string coercion
is ordinary decimal rendering.  It is modelled here by a fuel-indexed
structural recursion (fuel `n + 1` always suffices) so that concrete keys
evaluate inside `decide`, together with a proof-side well-founded variant
`digitsList` used to establish injectivity. -/

def digitChar (n : Nat) : Char := Char.ofNat (48 + n)

def natToStringAux : Nat → Nat → List Char → List Char
  | 0, _, acc => acc
  | fuel + 1, n, acc =>
      if n < 10 then digitChar n :: acc
      else natToStringAux fuel (n / 10) (digitChar (n % 10) :: acc)

def natToString (n : Nat) : String := String.mk (natToStringAux (n + 1) n [])

def digitsList (n : Nat) : List Char :=
  if n < 10 then [digitChar n]
  else digitsList (n / 10) ++ [digitChar (n % 10)]
termination_by n
decreasing_by
  exact Nat.div_lt_self (by omega) (by omega)

theorem digitsList_of_lt {n : Nat} (h : n < 10) : digitsList n = [digitChar n] := by
  rw [digitsList]; simp [h]

theorem digitsList_of_ge {n : Nat} (h : ¬ n < 10) :
    digitsList n = digitsList (n / 10) ++ [digitChar (n % 10)] := by
  conv_lhs => rw [digitsList]
  simp [h]

theorem natToStringAux_eq_digitsList :
    ∀ fuel n acc, n < fuel → natToStringAux fuel n acc = digitsList n ++ acc := by
  intro fuel
  induction fuel with
  | zero => intro n acc h; omega
  | succ fuel ih =>
      intro n acc h
      rw [natToStringAux]
      by_cases h10 : n < 10
      · rw [digitsList_of_lt h10]
        simp [h10]
      · have hdiv : n / 10 < fuel := by
          have h1 : n / 10 < n := Nat.div_lt_self (by omega) (by omega)
          omega
        rw [if_neg h10, ih (n / 10) _ hdiv, digitsList_of_ge h10, List.append_assoc]
        rfl

theorem digitsList_ne_nil (n : Nat) : digitsList n ≠ [] := by
  by_cases h : n < 10
  · rw [digitsList_of_lt h]; simp
  · rw [digitsList_of_ge h]; simp

theorem digitChar_inj : ∀ a < 10, ∀ b < 10, digitChar a = digitChar b → a = b := by decide

theorem digitsList_inj : ∀ m n : Nat, digitsList m = digitsList n → m = n := by
  intro m
  induction m using Nat.strong_induction_on with
  | _ m ih =>
      intro n h
      by_cases hm : m < 10 <;> by_cases hn : n < 10
      · rw [digitsList_of_lt hm, digitsList_of_lt hn] at h
        exact digitChar_inj m hm n hn (by simpa using h)
      · rw [digitsList_of_lt hm, digitsList_of_ge hn] at h
        have hlen := congrArg List.length h
        simp at hlen
        have := digitsList_ne_nil (n / 10)
        cases he : digitsList (n / 10) with
        | nil => exact absurd he this
        | cons c cs => rw [he] at hlen; simp at hlen
      · rw [digitsList_of_ge hm, digitsList_of_lt hn] at h
        have hlen := congrArg List.length h
        simp at hlen
        have := digitsList_ne_nil (m / 10)
        cases he : digitsList (m / 10) with
        | nil => exact absurd he this
        | cons c cs => rw [he] at hlen; simp at hlen
      · rw [digitsList_of_ge hm, digitsList_of_ge hn] at h
        have h2 := congrArg List.reverse h
        simp only [List.reverse_append, List.reverse_cons, List.reverse_nil,
          List.nil_append, List.cons_append] at h2
        have hd : digitChar (m % 10) = digitChar (n % 10) := by
          have := List.head_eq_of_cons_eq h2
          simpa using this
        have ht : (digitsList (m / 10)).reverse = (digitsList (n / 10)).reverse :=
          List.tail_eq_of_cons_eq h2
        have hq : m / 10 = n / 10 :=
          ih (m / 10) (Nat.div_lt_self (by omega) (by omega)) (n / 10)
            (List.reverse_injective ht)
        have hr : m % 10 = n % 10 :=
          digitChar_inj _ (Nat.mod_lt _ (by omega)) _ (Nat.mod_lt _ (by omega)) hd
        omega

theorem natToString_eq (n : Nat) : natToString n = String.mk (digitsList n) := by
  unfold natToString
  rw [natToStringAux_eq_digitsList (n + 1) n [] (by omega), List.append_nil]

theorem natToString_inj : Function.Injective natToString := by
  intro m n h
  rw [natToString_eq, natToString_eq] at h
  exact digitsList_inj m n (by injection h)

/-! ### `generateUniqueKey` (src/lib/convert.ts, lines 82-90)

The source loops `while (existingKeys.has(newKey))`, trying `base`,
`base_1`, `base_2`, …; the loop is modelled as a first-hit search over the
first `existing.length + 1` candidate counters, which is enough by a
pigeonhole argument (`generateUniqueKey_find_some`): the candidates are
pairwise distinct, so they cannot all lie in `existing`.  The `none` branch
below is therefore unreachable. -/

def candidateKey (base : String) (i : Nat) : String :=
  base ++ "_" ++ natToString (i + 1)

def generateUniqueKey (base : String) (existing : List String) : String :=
  if base ∈ existing then
    match (List.range (existing.length + 1)).find? (fun i => !existing.contains (candidateKey base i)) with
    | some i => candidateKey base i
    | none => base
  else base

theorem candidateKey_inj (base : String) : Function.Injective (candidateKey base) := by
  intro i j h
  unfold candidateKey at h
  have hdata := congrArg String.data h
  have hab : ∀ s t : String, (s ++ t).data = s.data ++ t.data := by
    intro s t; cases s; cases t; rfl
  rw [hab, hab] at hdata
  have : (natToString (i + 1)).data = (natToString (j + 1)).data :=
    List.append_cancel_left hdata
  have : natToString (i + 1) = natToString (j + 1) := by
    cases he : natToString (i + 1); cases he2 : natToString (j + 1)
    simp only [he, he2] at this ⊢
    exact congrArg String.mk this
  have := natToString_inj this
  omega

theorem generateUniqueKey_find_some (base : String) (existing : List String) :
    (List.range (existing.length + 1)).find?
      (fun i => !existing.contains (candidateKey base i)) ≠ none := by
  intro hnone
  have hall : ∀ i ∈ List.range (existing.length + 1),
      candidateKey base i ∈ existing := by
    intro i hi
    have := List.find?_eq_none.mp hnone i hi
    simpa using this
  have hsub : (Finset.range (existing.length + 1)).image (candidateKey base) ⊆
      existing.toFinset := by
    intro k hk
    rcases Finset.mem_image.mp hk with ⟨i, hi, rfl⟩
    exact List.mem_toFinset.mpr (hall i (List.mem_range.mpr (Finset.mem_range.mp hi)))
  have hcard := Finset.card_le_card hsub
  rw [Finset.card_image_of_injective _ (candidateKey_inj base), Finset.card_range] at hcard
  have := List.toFinset_card_le existing
  omega

theorem generateUniqueKey_not_mem (base : String) (existing : List String) :
    generateUniqueKey base existing ∉ existing := by
  unfold generateUniqueKey
  by_cases hb : base ∈ existing
  · rw [if_pos hb]
    cases hf : (List.range (existing.length + 1)).find?
        (fun i => !existing.contains (candidateKey base i)) with
    | none => exact absurd hf (generateUniqueKey_find_some base existing)
    | some i =>
        have := List.find?_some hf
        simpa using this
  · rw [if_neg hb]; exact hb

namespace Convert

/-! ### Data model of `src/lib/convert.ts`

The interfaces `Column`, `Node`, `CodeInfo`, `Edge`, `Graph`,
`MergedOperation`, `MergedResult` (lines 32-80).  `Node.columns` is the
declared union `Column[] | { [key: string]: string }`.  The two optional
name fields of `MergedOperation` (`source_entity_name`, `target_entity_name`)
are never assigned anywhere in this revision, so the destructuring at line 172
that removes them is the identity and the model omits them. -/

structure Column where
  column_name : String
  column_type : String
deriving DecidableEq

inductive Columns where
  | arr : List Column → Columns
  | map : List (String × String) → Columns
deriving DecidableEq

structure Node where
  id : String
  name : String
  columns : Columns
deriving DecidableEq

structure CodeInfo where
  code : String
  lineno : Option Int
  file_path : String
  end_lineno : Option Int
deriving DecidableEq

/-- The default record assigned at lines 128-133 when an edge has no
`code_info`. -/
def emptyCodeInfo : CodeInfo := ⟨"", none, "", none⟩

structure Edge where
  operation : String
  source_entity : String
  target_entity : String
  source_column : String
  target_column : String
  operation_description : String
  code_info : Option CodeInfo
deriving DecidableEq

structure Graph where
  nodes : List Node
  edges : List Edge
deriving DecidableEq

structure DataframeEntry where
  id : String
  columns : List (String × String)
deriving DecidableEq

structure MergedOperation where
  code_info : CodeInfo
  operation : String
  source_columns : List String
  source_entity : String
  target_columns : List String
  target_entity : String
  operation_description : String
deriving DecidableEq

structure MergedResult where
  dataframe : List (String × DataframeEntry)
  operation : List (String × MergedOperation)
deriving DecidableEq

def emptyMergedResult : MergedResult := ⟨[], []⟩

/-- JS object assignment `o[k] = v`: overwrite in place if `k` is already an
own key (the key keeps its original position), otherwise append. -/
def setField {α : Type} : List (String × α) → String → α → List (String × α)
  | [], k, v => [(k, v)]
  | (k2, v2) :: rest, k, v =>
      if k2 = k then (k2, v) :: rest else (k2, v2) :: setField rest k v

/-- Generic first-match association lookup (JS object indexing for non-string
key types, used for the stringified edge-key table). -/
def lookupKey {κ α : Type} [DecidableEq κ] (k : κ) : List (κ × α) → Option α
  | [] => none
  | (k2, v) :: rest => if k2 = k then some v else lookupKey k rest

/-- Lines 107-111: `const nodeColumns = node.columns as Column[];` then
`for (const column of nodeColumns) { columns[column.column_name] = column.column_type }`.
The cast is unchecked: when `columns` is in fact the mapping branch of the
union type, `for...of` over a plain (non-iterable) object throws
`TypeError`, modelled as `Except.error`. -/
def convertColumns : Columns → Except String (List (String × String))
  | .arr cols => .ok (cols.foldl (fun acc c => setField acc c.column_name c.column_type) [])
  | .map _ => .error "TypeError: nodeColumns is not iterable"

/-- The node pass of `mergeOperation` (lines 103-121): builds the `dataframe`
association list (insertion order, keys disambiguated against the keys
already present) and the `entityDict` id→name table. -/
def buildDataframe : List Node → List (String × DataframeEntry) → List (String × String) →
    Except String (List (String × DataframeEntry) × List (String × String))
  | [], df, entityDict => .ok (df, entityDict)
  | node :: rest, df, entityDict =>
      match convertColumns node.columns with
      | .error e => .error e
      | .ok columns =>
          let uniqueKey := generateUniqueKey node.name (df.map Prod.fst)
          buildDataframe rest (df ++ [(uniqueKey, ⟨node.id, columns⟩)])
            (setField entityDict node.id node.name)

/-- `edge.code_info` after the defaulting at lines 127-134. -/
def defaultCodeInfo (e : Edge) : CodeInfo := e.code_info.getD emptyCodeInfo

/-- The grouping key of lines 136-142.  The source key is
`JSON.stringify([operation, source_entity, target_entity, file_path, lineno])`;
`JSON.stringify` is injective on such 5-tuples of strings and
numbers/nulls, so the tuple itself is used as the key. -/
abbrev EdgeKey := String × String × String × String × Option Int

def edgeKey (e : Edge) : EdgeKey :=
  (e.operation, e.source_entity, e.target_entity,
   (defaultCodeInfo e).file_path, (defaultCodeInfo e).lineno)

/-- The entry created at lines 144-153 for the first edge of a group. -/
def initMergedOperation (e : Edge) : MergedOperation :=
  { code_info := defaultCodeInfo e
    operation := e.operation
    source_columns := [e.source_column]
    source_entity := e.source_entity
    target_columns := [e.target_column]
    target_entity := e.target_entity
    operation_description := e.operation_description }

/-- Lines 154-157: `mergedOperation[key].source_columns.push(...)` — append one
source/target column to the (unique) entry with the given key. -/
def appendColumns : List (EdgeKey × MergedOperation) → EdgeKey → String → String →
    List (EdgeKey × MergedOperation)
  | [], _, _, _ => []
  | (k2, m) :: rest, k, sc, tc =>
      if k2 = k then
        (k2, { m with source_columns := m.source_columns ++ [sc],
                      target_columns := m.target_columns ++ [tc] }) :: rest
      else (k2, m) :: appendColumns rest k sc tc

/-- The edge pass of `mergeOperation` (lines 124-158), keeping groups in
insertion order (as `Object.values` does for these non-index string keys). -/
def groupEdges : List Edge → List (EdgeKey × MergedOperation) → List (EdgeKey × MergedOperation)
  | [], acc => acc
  | e :: rest, acc =>
      match lookupKey (edgeKey e) acc with
      | none => groupEdges rest (acc ++ [(edgeKey e, initMergedOperation e)])
      | some _ => groupEdges rest (appendColumns acc (edgeKey e) e.source_column e.target_column)

/-- Lines 165-166: `entityDict[mergedOp.source_entity] || 'unknown'`.  JS `||`
falls through on every falsy value, so an id that is present in the table but
mapped to the empty-string name also yields `"unknown"`, exactly like an
absent id. -/
def resolveEntityName (entityDict : List (String × String)) (entity : String) : String :=
  match lookupField entity entityDict with
  | some n => if n = "" then "unknown" else n
  | none => "unknown"

/-- The re-keying pass of `mergeOperation` (lines 160-174). -/
def rekeyOperations (entityDict : List (String × String)) :
    List (EdgeKey × MergedOperation) → List (String × MergedOperation) →
    List (String × MergedOperation)
  | [], acc => acc
  | (_, m) :: rest, acc =>
      let baseKey := resolveEntityName entityDict m.source_entity ++ "-" ++
                     resolveEntityName entityDict m.target_entity
      let uniqueKey := generateUniqueKey baseKey (acc.map Prod.fst)
      rekeyOperations entityDict rest (acc ++ [(uniqueKey, m)])

/-- `mergeOperation` (lines 92-180).  `Graph.nodes`/`Graph.edges` are required
by the `Graph` interface, so the defensive `graph.nodes || []` at lines 98-99
is the identity here. -/
def mergeOperation : Option Graph → Except String MergedResult
  | none => .ok emptyMergedResult
  | some graph =>
      match buildDataframe graph.nodes [] [] with
      | .error e => .error e
      | .ok (dataframe, entityDict) =>
          .ok ⟨dataframe, rekeyOperations entityDict (groupEdges graph.edges []) []⟩

end Convert

namespace Convert

/-! ### Report walking (`analyzeJob`, `analyzeXmlReport`, lines 182-252)

The source mutates the structures it walks: it assigns `report.graph` (from
the fallback), `report.key_info`, `stage.key_info`, `process.key_info`, and —
inside `mergeOperation` — a default `code_info` onto every input edge; it then
returns the mutated input as `updatedReport`.  The pure model returns the
updated structures explicitly; `defaultEdges` records the in-place edge
defaulting that JavaScript aliasing would make visible through every
reference to a merged graph.  (Aliasing through the nested
`report.report.report_result.graph` fallback object is not tracked.)

The stage loop (lines 198-210) iterates every own property of a process
except `"graph"`.  Raw lineage reports carry no `key_info` property — that
key is only ever created by this very function — so a process is modelled as
its optional `graph` plus the list `props` of its remaining (stage-valued)
properties, with `key_info` kept as a separate output slot. -/

/-- The in-place `edge.code_info` defaulting (lines 127-134) as seen on the
graph after `mergeOperation` has run over it. -/
def defaultEdges (g : Graph) : Graph :=
  { g with edges := g.edges.map (fun e => { e with code_info := some (defaultCodeInfo e) }) }

structure Stage where
  graph : Option Graph
  key_info : Option MergedResult
deriving DecidableEq

structure Process where
  graph : Option Graph
  props : List (String × Stage)
  key_info : Option MergedResult
deriving DecidableEq

abbrev Job := List (String × Process)

abbrev Jobs := List (String × Job)

/-- The merged entry for one process: the process's own `MergedResult` plus
the `stages` mapping attached at line 196.  (In the source the very same
object is also assigned to `process.key_info`; the model stores the plain
`MergedResult` there.) -/
structure ProcessMerged where
  dataframe : List (String × DataframeEntry)
  operation : List (String × MergedOperation)
  stages : List (String × MergedResult)
deriving DecidableEq

abbrev MergedJob := List (String × ProcessMerged)

abbrev MergedJobs := List (String × MergedJob)

/-- The stage loop of `analyzeJob` (lines 198-210): every non-`"graph"`
property of the process is treated as a stage; a stage without a graph gets
the empty `MergedResult` without calling `mergeOperation`. -/
def analyzeStages : List (String × Stage) →
    Except String (List (String × MergedResult) × List (String × Stage))
  | [] => .ok ([], [])
  | (stageName, stage) :: rest => do
      let stageMerged ← match stage.graph with
        | some g => mergeOperation (some g)
        | none => pure emptyMergedResult
      let (mergedRest, updatedRest) ← analyzeStages rest
      pure ((stageName, stageMerged) :: mergedRest,
            (stageName, { graph := stage.graph.map defaultEdges,
                          key_info := some stageMerged }) :: updatedRest)

/-- One iteration of the process loop (lines 186-213). -/
def analyzeProcess (p : Process) : Except String (ProcessMerged × Process) := do
  let processMerged ← mergeOperation p.graph
  let (mergedStages, updatedStages) ← analyzeStages p.props
  pure ({ dataframe := processMerged.dataframe,
          operation := processMerged.operation,
          stages := mergedStages },
        { graph := p.graph.map defaultEdges,
          props := updatedStages,
          key_info := some processMerged })

def analyzeJobProcesses : List (String × Process) →
    Except String (List (String × ProcessMerged) × List (String × Process))
  | [] => .ok ([], [])
  | (processName, p) :: rest => do
      let (pm, pu) ← analyzeProcess p
      let (mergedRest, updatedRest) ← analyzeJobProcesses rest
      pure ((processName, pm) :: mergedRest, (processName, pu) :: updatedRest)

/-- `analyzeJob` (lines 182-217): walks every job and every process of it. -/
def analyzeJob : Jobs → Except String (MergedJobs × Jobs)
  | [] => .ok ([], [])
  | (jobName, job) :: rest => do
      let (jm, ju) ← analyzeJobProcesses job
      let (mergedRest, updatedRest) ← analyzeJob rest
      pure ((jobName, jm) :: mergedRest, (jobName, ju) :: updatedRest)

structure ReportResult where
  graph : Option Graph
deriving DecidableEq

structure SubReport where
  report_result : Option ReportResult
deriving DecidableEq

/-- A report: its optional top-level `graph` and `key_info`, the optional
nested `report.report_result` fallback location, and the remaining dynamic
top-level keys (`entries`), each holding a job collection. -/
structure Report where
  graph : Option Graph
  key_info : Option MergedResult
  report : Option SubReport
  entries : List (String × Jobs)
deriving DecidableEq

structure MergedReport where
  entire_report : MergedResult
  entries : List (String × MergedJobs)
deriving DecidableEq

/-- `xmlName.toLowerCase().includes('.xml')`: `leadsWith pat text` is
"text starts with pat"; `hasSub text pat` is `String.prototype.includes`. -/
def leadsWith : List Char → List Char → Bool
  | [], _ => true
  | _ :: _, [] => false
  | p :: ps, c :: cs => p == c && leadsWith ps cs

def hasSub : List Char → List Char → Bool
  | [], pat => pat.isEmpty
  | c :: rest, pat => leadsWith pat (c :: rest) || hasSub rest pat

/-- `toLowerCase()` modelled as a per-character map (ASCII suffices for the
`.xml` test). -/
def lowerStr (s : String) : String := String.mk (s.data.map Char.toLower)

/-- Line 236: `typeof xmlName === 'string' && xmlName.toLowerCase().includes('.xml')`
(keys of `Object.entries` are always strings, so the `typeof` guard is
always true). -/
def xmlTest (name : String) : Bool := hasSub (lowerStr name).data ".xml".data

/-- The key loop of `analyzeXmlReport` (lines 235-241): keys passing the
`.xml` test are analyzed and re-assigned; all other keys are untouched and do
not appear in the merged report. -/
def processXmlEntries : List (String × Jobs) →
    Except String (List (String × MergedJobs) × List (String × Jobs))
  | [] => .ok ([], [])
  | (xmlName, jobs) :: rest =>
      if xmlTest xmlName then do
        let (mergedJobs, updatedJobs) ← analyzeJob jobs
        let (mergedRest, updatedRest) ← processXmlEntries rest
        pure ((xmlName, mergedJobs) :: mergedRest, (xmlName, updatedJobs) :: updatedRest)
      else do
        let (mergedRest, updatedRest) ← processXmlEntries rest
        pure (mergedRest, (xmlName, jobs) :: updatedRest)

/-- The fallback lookup `report?.report?.report_result?.graph` (line 221). -/
def fallbackGraph (r : Report) : Option Graph :=
  match r.report with
  | some sub =>
      match sub.report_result with
      | some rr => rr.graph
      | none => none
  | none => none

/-- The body of `analyzeXmlReport` once a graph is at hand (lines 228-243):
merge it as `entire_report`, write it back onto the report's `key_info`, then
process the `.xml`-named keys. -/
def analyzeXmlReportCore (r : Report) (g : Graph) :
    Except String (MergedReport × Report) := do
  let reportMerged ← mergeOperation (some g)
  let (mergedEntries, updatedEntries) ← processXmlEntries r.entries
  pure ({ entire_report := reportMerged, entries := mergedEntries },
        { r with graph := some (defaultEdges g),
                 key_info := some reportMerged,
                 entries := updatedEntries })

/-- `analyzeXmlReport` (lines 219-244).  With no top-level graph it first
tries the fallback location, assigning it onto `report.graph`; with neither
it returns `[{ entire_report: {dataframe: {}, operation: {}} }, report]`
immediately — before, and therefore without, the `.xml` key loop. -/
def analyzeXmlReport (r : Report) : Except String (MergedReport × Report) :=
  match r.graph with
  | some g => analyzeXmlReportCore r g
  | none =>
      match fallbackGraph r with
      | some g => analyzeXmlReportCore { r with graph := some g } g
      | none => .ok ({ entire_report := emptyMergedResult, entries := [] }, r)

structure ConversionResult where
  mergedReport : MergedReport
  updatedReport : Report
deriving DecidableEq

/-- `convertReport` (lines 246-252). -/
def convertReport (r : Report) : Except String ConversionResult := do
  let (m, u) ← analyzeXmlReport r
  pure ⟨m, u⟩

end Convert

namespace Compare

/-! ### `src/lib/compare.ts` — the latest diff/similarity engine

`countProperties` and `countMatches` walk JS objects through
`Object.keys(obj).filter(...)` followed by indexing; on the association-list
model (unique keys) this is the same as walking the field list and skipping
ignored keys, which is how the two functions are written below.  The
`counted` identity sets are omitted: see the module comment on `Json`. -/

/-- `getComparableProps` (lines 26-28). -/
def getComparableProps (ig : List String) (fs : List (String × Json)) : List String :=
  (fs.map Prod.fst).filter (fun k => !ig.contains k)

/-- `!isJsonObject(value) && !isJsonArray(value)` — the "primitive" test of
lines 16-23 (note `null` counts as primitive: `isJsonObject` excludes it). -/
def isLeaf : Json → Bool
  | .arr _ => false
  | .obj _ => false
  | _ => true

/-! `countProperties` (lines 31-51): a leaf counts 1; an array contributes the
sum over its elements; an object the sum over its non-ignored properties. -/

mutual

def countProperties (ig : List String) : Json → Nat
  | .arr xs => countPropertiesList ig xs
  | .obj fs => countPropertiesFields ig fs
  | _ => 1

def countPropertiesList (ig : List String) : List Json → Nat
  | [] => 0
  | x :: xs => countProperties ig x + countPropertiesList ig xs

def countPropertiesFields (ig : List String) : List (String × Json) → Nat
  | [] => 0
  | (k, v) :: rest =>
      (if ig.contains k then 0 else countProperties ig v) + countPropertiesFields ig rest

end

/-! `countMatches` (lines 54-98): equal leaves match (strict equality, which
on JSON scalars is value equality and never equates different runtime types);
arrays recurse index-by-index up to the shorter length; objects recurse over
the non-ignored properties of `value1` that exist in `value2` (`prop in
value2`); any other combination contributes 0.  The source tests the
both-primitive case first; the constructor patterns below are disjoint from
it, so the order is immaterial. -/

mutual

def countMatches (ig : List String) : Json → Json → Nat
  | .arr xs, .arr ys => countMatchesList ig xs ys
  | .obj fs, .obj gs => countMatchesFields ig fs gs
  | a, b => if isLeaf a && isLeaf b then (if a = b then 1 else 0) else 0

def countMatchesList (ig : List String) : List Json → List Json → Nat
  | [], _ => 0
  | _ :: _, [] => 0
  | x :: xs, y :: ys => countMatches ig x y + countMatchesList ig xs ys

def countMatchesFields (ig : List String) : List (String × Json) → List (String × Json) → Nat
  | [], _ => 0
  | (k, v) :: rest, gs =>
      (if ig.contains k then 0
       else
         match lookupField k gs with
         | some w => countMatches ig v w
         | none => 0) + countMatchesFields ig rest gs

end

structure ComparisonResult where
  similarityPercentage : ℚ
  matchingProperties : Nat
  totalProperties : Nat
deriving DecidableEq

/-- `Math.round(x * 100) / 100` — JS `Math.round` rounds half toward `+∞`,
i.e. `⌊x + 1/2⌋`. -/
def round2 (q : ℚ) : ℚ := (⌊q * 100 + 1 / 2⌋ : ℚ) / 100

/-- `compareObjects` (lines 10-116).  The source's default for the third
parameter is `App.IGNORED_PROPERTIES`; the model always takes it
explicitly. -/
def compareObjects (obj1 obj2 : Json) (ig : List String) : ComparisonResult :=
  let totalProps := countProperties ig obj1
  let matchingProps := countMatches ig obj1 obj2
  let similarityPercentage : ℚ :=
    if totalProps = 0 then 100 else (matchingProps : ℚ) / (totalProps : ℚ) * 100
  { similarityPercentage := round2 similarityPercentage
    matchingProperties := matchingProps
    totalProperties := totalProps }

end Compare

namespace Part000

/-! ### `src/unnamed/part_000` — the earlier `compareObjects` revision

Its `countProperties` is character-for-character the one of
`src/lib/compare.ts`, so `Compare.countProperties` is reused.  Its
`countMatches` differs in two spots: the object branch tests membership in
the *comparable* (ignored-filtered) props of `value2` rather than `prop in
value2` (equivalent, since the prop is already non-ignored), and the array
loop runs to `max(len1, len2)` with a both-sides bound guard (equivalent to
the shorter length).  Its `totalProperties` is the max of both sides'
counts. -/

mutual

def countMatches (ig : List String) : Json → Json → Nat
  | .arr xs, .arr ys => countMatchesList ig xs ys
  | .obj fs, .obj gs => countMatchesFields ig fs gs
  | a, b => if Compare.isLeaf a && Compare.isLeaf b then (if a = b then 1 else 0) else 0

def countMatchesList (ig : List String) : List Json → List Json → Nat
  | [], _ => 0
  | _ :: _, [] => 0
  | x :: xs, y :: ys => countMatches ig x y + countMatchesList ig xs ys

def countMatchesFields (ig : List String) : List (String × Json) → List (String × Json) → Nat
  | [], _ => 0
  | (k, v) :: rest, gs =>
      (if ig.contains k then 0
       else if (Compare.getComparableProps ig gs).contains k then
         match lookupField k gs with
         | some w => countMatches ig v w
         | none => 0
       else 0) + countMatchesFields ig rest gs

end

/-- `compareObjects` of `part_000` (lines 9-121): identical to the latest one
except that `totalProps` is `Math.max(countProperties(obj1), countProperties(obj2))`.
The source default for `ignoredProperties` is
`['id', 'source_entity', 'target_entity']`. -/
def compareObjects (obj1 obj2 : Json) (ig : List String) : Compare.ComparisonResult :=
  let totalProps := max (Compare.countProperties ig obj1) (Compare.countProperties ig obj2)
  let matchingProps := countMatches ig obj1 obj2
  let similarityPercentage : ℚ :=
    if totalProps = 0 then 100 else (matchingProps : ℚ) / (totalProps : ℚ) * 100
  { similarityPercentage := Compare.round2 similarityPercentage
    matchingProperties := matchingProps
    totalProperties := totalProps }

end Part000

/-- `DiffStatus` (src/types.ts): `'same' | 'added' | 'removed' | 'modified'`. -/
inductive DiffStatus where
  | same
  | added
  | removed
  | modified
deriving DecidableEq

namespace AppTsx

/-! ### `src/src/App.tsx` — the non-recursive `compareValues` (lines 93-100)

```
if (_.isEqual(left, right)) return 'same';
if (left === undefined) return 'added';
if (right === undefined) return 'removed';
if (typeof left !== typeof right) return 'modified';
if (Array.isArray(left) !== Array.isArray(right)) return 'modified';
return 'modified';
```
The three trailing branches all return `'modified'`. -/

def compareValues (left right : Option Json) : DiffStatus :=
  if jsonEqOpt left right then .same
  else if left = none then .added
  else if right = none then .removed
  else .modified

end AppTsx

namespace Part001

/-! ### first file of `src/unnamed/part_001` — the recursive `compareValues`

Lines 98-148 of `part_001`.  The classifier checks `left === undefined`
first (before any equality test), reads the module-level
`IGNORED_PROPERTIES`, and recurses through the union of both objects' keys
(`Array.from(new Set([...Object.keys(l), ...Object.keys(r)]))` — insertion
order, first occurrence kept) and through arrays of equal length
index-by-index.  A nested status other than `'same'` makes the parent
`'modified'`; the loops themselves can only produce `'same'` or
`'modified'`. -/

/-- Line 15 of the file: `export const IGNORED_PROPERTIES = [...]`. -/
def IGNORED_PROPERTIES : List String :=
  ["id", "source_entity", "target_entity", "dropped_columns", "entity_value"]

/-- `Array.from(new Set([...ks]))`: deduplication keeping first occurrences
in order. -/
def jsUnionKeys (ks : List String) : List String :=
  ks.foldl (fun acc k => if k ∈ acc then acc else acc ++ [k]) []

mutual

def compareValues (left right : Option Json) (currentPath : String) : DiffStatus :=
  match left, right with
  | none, _ => .added
  | _, none => .removed
  | some (Json.obj lf), some (Json.obj rf) =>
      compareObjFields lf rf currentPath (jsUnionKeys (lf.map Prod.fst ++ rf.map Prod.fst))
  | some (Json.arr ls), some (Json.arr rs) =>
      if ls.length ≠ rs.length then .modified
      else compareArrElems ls rs currentPath 0
  | some a, some b => if jsonEq a b then .same else .modified
termination_by (osize left + osize right, 1)
decreasing_by
  · apply Prod.Lex.left; simp [osize, jsize]; try omega
  · apply Prod.Lex.left; simp [osize, jsize]; try omega

def compareObjFields (lf rf : List (String × Json)) (currentPath : String) :
    (keys : List String) → DiffStatus
  | [] => .same
  | k :: rest =>
      if k ∈ IGNORED_PROPERTIES then compareObjFields lf rf currentPath rest
      else
        let propertyPath := if currentPath = "" then k else currentPath ++ "." ++ k
        if compareValues (lookupField k lf) (lookupField k rf) propertyPath ≠ DiffStatus.same
        then .modified
        else compareObjFields lf rf currentPath rest
termination_by keys => (1 + jsizeFields lf + jsizeFields rf, keys.length)
decreasing_by
  · apply Prod.Lex.right; simp
  · have h1 := osize_lookupField_le k lf
    have h2 := osize_lookupField_le k rf
    apply Prod.Lex.left; omega
  · apply Prod.Lex.right; simp

def compareArrElems : (xs ys : List Json) → String → Nat → DiffStatus
  | [], _, _, _ => .same
  | _, [], _, _ => .same
  | x :: xs, y :: ys, currentPath, i =>
      if compareValues (some x) (some y)
          (currentPath ++ "[" ++ natToString i ++ "]") ≠ DiffStatus.same
      then .modified
      else compareArrElems xs ys currentPath (i + 1)
termination_by xs ys => (1 + jsizeList xs + jsizeList ys, 0)
decreasing_by
  · apply Prod.Lex.left; simp [osize, jsizeList]; omega
  · have h1 := jsize_pos x
    have h2 := jsize_pos y
    apply Prod.Lex.left; simp [jsizeList]; omega

end

end Part001

/-! ## Auxiliary definitions and lemmas for the claim theorems -/

/-! A `Json` tree is well-formed when every object has pairwise-distinct
keys — the invariant every value decoded from a JS object satisfies (a JS
object cannot have two own properties with the same name). -/

mutual

def jsonWF : Json → Bool
  | .arr xs => jsonWFList xs
  | .obj fs => decide ((fs.map Prod.fst).Nodup) && jsonWFFields fs
  | _ => true

def jsonWFList : List Json → Bool
  | [] => true
  | x :: xs => jsonWF x && jsonWFList xs

def jsonWFFields : List (String × Json) → Bool
  | [] => true
  | (_, v) :: rest => jsonWF v && jsonWFFields rest

end

theorem lookupField_self_of_nodup {α : Type} :
    ∀ fs : List (String × α), (fs.map Prod.fst).Nodup →
      ∀ k v, (k, v) ∈ fs → lookupField k fs = some v
  | [], _, _, _, hmem => by simp at hmem
  | (k2, v2) :: rest, hnd, k, v, hmem => by
      rw [List.map_cons, List.nodup_cons] at hnd
      rcases List.mem_cons.mp hmem with heq | hrest
      · cases heq
        simp [lookupField]
      · have hk : k2 ≠ k := by
          intro he
          subst he
          exact hnd.1 (List.mem_map.mpr ⟨(k2, v), hrest, rfl⟩)
        rw [lookupField, if_neg hk]
        exact lookupField_self_of_nodup rest hnd.2 k v hrest

mutual

theorem countMatches_self (ig : List String) :
    ∀ x : Json, jsonWF x = true → Compare.countMatches ig x x = Compare.countProperties ig x
  | .null, _ => by simp [Compare.countMatches, Compare.countProperties, Compare.isLeaf]
  | .bool _, _ => by simp [Compare.countMatches, Compare.countProperties, Compare.isLeaf]
  | .num _, _ => by simp [Compare.countMatches, Compare.countProperties, Compare.isLeaf]
  | .str _, _ => by simp [Compare.countMatches, Compare.countProperties, Compare.isLeaf]
  | .arr xs, h => by
      simp only [jsonWF] at h
      simp only [Compare.countMatches, Compare.countProperties]
      exact countMatchesList_self ig xs h
  | .obj fs, h => by
      simp only [jsonWF, Bool.and_eq_true, decide_eq_true_eq] at h
      simp only [Compare.countMatches, Compare.countProperties]
      exact countMatchesFields_self ig fs fs (lookupField_self_of_nodup fs h.1) h.2

theorem countMatchesList_self (ig : List String) :
    ∀ xs : List Json, jsonWFList xs = true →
      Compare.countMatchesList ig xs xs = Compare.countPropertiesList ig xs
  | [], _ => rfl
  | x :: xs, h => by
      simp only [jsonWFList, Bool.and_eq_true] at h
      simp only [Compare.countMatchesList, Compare.countPropertiesList]
      rw [countMatches_self ig x h.1, countMatchesList_self ig xs h.2]

theorem countMatchesFields_self (ig : List String) :
    ∀ (fs gs : List (String × Json)),
      (∀ k v, (k, v) ∈ fs → lookupField k gs = some v) →
      jsonWFFields fs = true →
      Compare.countMatchesFields ig fs gs = Compare.countPropertiesFields ig fs
  | [], _, _, _ => rfl
  | (k, v) :: rest, gs, hlk, h => by
      simp only [jsonWFFields, Bool.and_eq_true] at h
      have h1 := hlk k v (List.mem_cons_self _ _)
      have h2 := countMatchesFields_self ig rest gs
        (fun k2 v2 hm => hlk k2 v2 (List.mem_cons_of_mem _ hm)) h.2
      have h3 := countMatches_self ig v h.1
      simp only [Compare.countMatchesFields, Compare.countPropertiesFields, h1, h3, h2]

end

/-! ### Spec-side characterization of the edge grouping (for claim C5)

`specGroup` follows the specification's words: the merged entry for a
grouping key lists, in encounter order, the source/target columns of exactly
the edges whose (defaulted) identity tuple equals that key, and takes every
other field from the first such edge. -/

def edgesWithKey (edges : List Convert.Edge) (k : Convert.EdgeKey) : List Convert.Edge :=
  edges.filter (fun e => decide (Convert.edgeKey e = k))

def specGroup (edges : List Convert.Edge) (k : Convert.EdgeKey) :
    Option Convert.MergedOperation :=
  match edgesWithKey edges k with
  | [] => none
  | e :: _ => some
      { code_info := Convert.defaultCodeInfo e
        operation := e.operation
        source_columns := (edgesWithKey edges k).map (fun e2 => e2.source_column)
        source_entity := e.source_entity
        target_columns := (edgesWithKey edges k).map (fun e2 => e2.target_column)
        target_entity := e.target_entity
        operation_description := e.operation_description }

/-- One `push` step of lines 155-156, as a function. -/
def pushCols (m : Convert.MergedOperation) (sc tc : String) : Convert.MergedOperation :=
  { m with source_columns := m.source_columns ++ [sc],
           target_columns := m.target_columns ++ [tc] }

/-- Appending the columns of a whole run of edges to an existing group. -/
def extendGroup (m : Convert.MergedOperation) (l : List Convert.Edge) :
    Convert.MergedOperation :=
  { m with source_columns := m.source_columns ++ l.map (fun e => e.source_column),
           target_columns := m.target_columns ++ l.map (fun e => e.target_column) }

theorem extendGroup_nil (m : Convert.MergedOperation) : extendGroup m [] = m := by
  cases m; simp [extendGroup]

theorem extendGroup_cons (m : Convert.MergedOperation) (e : Convert.Edge)
    (l : List Convert.Edge) :
    extendGroup m (e :: l) = extendGroup (pushCols m e.source_column e.target_column) l := by
  cases m; simp [extendGroup, pushCols]

theorem edgesWithKey_cons_self (e : Convert.Edge) (rest : List Convert.Edge) :
    edgesWithKey (e :: rest) (Convert.edgeKey e) =
      e :: edgesWithKey rest (Convert.edgeKey e) := by
  simp [edgesWithKey]

theorem edgesWithKey_cons_ne (e : Convert.Edge) (rest : List Convert.Edge)
    (k : Convert.EdgeKey) (h : Convert.edgeKey e ≠ k) :
    edgesWithKey (e :: rest) k = edgesWithKey rest k := by
  simp [edgesWithKey, List.filter_cons, h]

theorem specGroup_cons_ne (e : Convert.Edge) (rest : List Convert.Edge)
    (k : Convert.EdgeKey) (h : Convert.edgeKey e ≠ k) :
    specGroup (e :: rest) k = specGroup rest k := by
  unfold specGroup
  rw [edgesWithKey_cons_ne e rest k h]

theorem specGroup_cons_self (e : Convert.Edge) (rest : List Convert.Edge) :
    specGroup (e :: rest) (Convert.edgeKey e) =
      some (extendGroup (Convert.initMergedOperation e)
        (edgesWithKey rest (Convert.edgeKey e))) := by
  rw [specGroup, edgesWithKey_cons_self]
  simp [extendGroup, Convert.initMergedOperation]

theorem lookupKey_append_single {κ α : Type} [DecidableEq κ]
    (acc : List (κ × α)) (k0 k : κ) (m0 : α) :
    Convert.lookupKey k (acc ++ [(k0, m0)]) =
      match Convert.lookupKey k acc with
      | some m => some m
      | none => if k0 = k then some m0 else none := by
  induction acc with
  | nil => simp [Convert.lookupKey]
  | cons hd tl ih =>
      obtain ⟨k2, v2⟩ := hd
      by_cases h : k2 = k
      · simp [Convert.lookupKey, h]
      · rw [List.cons_append, Convert.lookupKey, if_neg h, Convert.lookupKey, if_neg h, ih]

theorem lookupKey_appendColumns (acc : List (Convert.EdgeKey × Convert.MergedOperation))
    (k0 k : Convert.EdgeKey) (sc tc : String) :
    Convert.lookupKey k (Convert.appendColumns acc k0 sc tc) =
      if k = k0 then (Convert.lookupKey k acc).map (fun m => pushCols m sc tc)
      else Convert.lookupKey k acc := by
  induction acc with
  | nil => by_cases h : k = k0 <;> simp [Convert.appendColumns, Convert.lookupKey, h]
  | cons hd tl ih =>
      obtain ⟨k2, m2⟩ := hd
      rw [Convert.appendColumns]
      by_cases h2 : k2 = k0
      · rw [if_pos h2]
        subst h2
        by_cases h : k2 = k
        · subst h
          rw [Convert.lookupKey, if_pos rfl, if_pos rfl, Convert.lookupKey, if_pos rfl]
          rfl
        · rw [Convert.lookupKey, if_neg h, Convert.lookupKey, if_neg h,
            if_neg (fun he => h he.symm)]
      · rw [if_neg h2]
        by_cases h : k2 = k
        · subst h
          rw [Convert.lookupKey, if_pos rfl, Convert.lookupKey, if_pos rfl, if_neg h2]
        · rw [Convert.lookupKey, if_neg h, Convert.lookupKey, if_neg h, ih]

theorem groupEdges_lookup :
    ∀ (edges : List Convert.Edge) (acc : List (Convert.EdgeKey × Convert.MergedOperation))
      (k : Convert.EdgeKey),
      Convert.lookupKey k (Convert.groupEdges edges acc) =
        match Convert.lookupKey k acc with
        | some m => some (extendGroup m (edgesWithKey edges k))
        | none => specGroup edges k := by
  intro edges
  induction edges with
  | nil =>
      intro acc k
      rw [Convert.groupEdges]
      cases h : Convert.lookupKey k acc with
      | none => simp [specGroup, edgesWithKey]
      | some m => simp [edgesWithKey, extendGroup_nil]
  | cons e rest ih =>
      intro acc k
      rw [Convert.groupEdges]
      cases he : Convert.lookupKey (Convert.edgeKey e) acc with
      | none =>
          simp only [he]
          rw [ih, lookupKey_append_single]
          cases hr : Convert.lookupKey k acc with
          | some m =>
              have hk : Convert.edgeKey e ≠ k := by
                intro hkk
                rw [hkk, hr] at he
                cases he
              simp only [hr, edgesWithKey_cons_ne e rest k hk]
          | none =>
              simp only [hr]
              by_cases hk : Convert.edgeKey e = k
              · subst hk
                rw [if_pos rfl, specGroup_cons_self]
              · rw [if_neg hk, specGroup_cons_ne e rest k hk]
      | some m0 =>
          simp only [he]
          rw [ih, lookupKey_appendColumns]
          by_cases hk : k = Convert.edgeKey e
          · subst hk
            rw [he, if_pos rfl, edgesWithKey_cons_self]
            show some (extendGroup (pushCols m0 e.source_column e.target_column)
                (edgesWithKey rest (Convert.edgeKey e))) =
              some (extendGroup m0 (e :: edgesWithKey rest (Convert.edgeKey e)))
            rw [extendGroup_cons]
          · rw [if_neg hk]
            have hk2 : Convert.edgeKey e ≠ k := fun he2 => hk he2.symm
            rw [edgesWithKey_cons_ne e rest k hk2]
            cases hr : Convert.lookupKey k acc with
            | some m => rfl
            | none => rw [specGroup_cons_ne e rest k hk2]

/-! ### Key-uniqueness invariants of `mergeOperation` (claims C7, C8) -/

theorem buildDataframe_spec :
    ∀ (nodes : List Convert.Node) (df : List (String × Convert.DataframeEntry))
      (ed : List (String × String)) (df2 : List (String × Convert.DataframeEntry))
      (ed2 : List (String × String)),
      Convert.buildDataframe nodes df ed = .ok (df2, ed2) →
      (df.map Prod.fst).Nodup →
      (df2.map Prod.fst).Nodup ∧ df2.length = df.length + nodes.length := by
  intro nodes
  induction nodes with
  | nil =>
      intro df ed df2 ed2 h hnd
      rw [Convert.buildDataframe] at h
      simp only [Except.ok.injEq, Prod.mk.injEq] at h
      obtain ⟨rfl, rfl⟩ := h
      exact ⟨hnd, by simp⟩
  | cons node rest ih =>
      intro df ed df2 ed2 h hnd
      rw [Convert.buildDataframe] at h
      cases hc : Convert.convertColumns node.columns with
      | error e => rw [hc] at h; cases h
      | ok columns =>
          rw [hc] at h
          have hnd2 : ((df ++ [(generateUniqueKey node.name (df.map Prod.fst),
              (⟨node.id, columns⟩ : Convert.DataframeEntry))]).map Prod.fst).Nodup := by
            rw [List.map_append]
            rw [List.nodup_append]
            refine ⟨hnd, by simp, ?_⟩
            intro a ha hb
            simp only [List.map_cons, List.map_nil, List.mem_singleton] at hb
            subst hb
            exact generateUniqueKey_not_mem node.name (df.map Prod.fst) ha
          obtain ⟨h1, h2⟩ := ih _ _ _ _ h hnd2
          refine ⟨h1, ?_⟩
          rw [h2]
          simp
          omega

theorem rekeyOperations_spec (ed : List (String × String)) :
    ∀ (ops : List (Convert.EdgeKey × Convert.MergedOperation))
      (acc : List (String × Convert.MergedOperation)),
      (acc.map Prod.fst).Nodup →
      ((Convert.rekeyOperations ed ops acc).map Prod.fst).Nodup ∧
      (Convert.rekeyOperations ed ops acc).map Prod.snd =
        acc.map Prod.snd ++ ops.map Prod.snd := by
  intro ops
  induction ops with
  | nil =>
      intro acc hnd
      rw [Convert.rekeyOperations]
      exact ⟨hnd, by simp⟩
  | cons p rest ih =>
      obtain ⟨k0, m⟩ := p
      intro acc hnd
      rw [Convert.rekeyOperations]
      have hnd2 : ((acc ++ [(generateUniqueKey
          (Convert.resolveEntityName ed m.source_entity ++ "-" ++
            Convert.resolveEntityName ed m.target_entity) (acc.map Prod.fst), m)]).map
            Prod.fst).Nodup := by
        rw [List.map_append, List.nodup_append]
        refine ⟨hnd, by simp, ?_⟩
        intro a ha hb
        simp only [List.map_cons, List.map_nil, List.mem_singleton] at hb
        subst hb
        exact generateUniqueKey_not_mem _ (acc.map Prod.fst) ha
      obtain ⟨h1, h2⟩ := ih _ hnd2
      refine ⟨h1, ?_⟩
      rw [h2]
      simp

/-! ### The recursive classifier only produces `same`/`modified` below the
top level (claim C1) -/

theorem compareObjFields_same_or_modified (lf rf : List (String × Json)) (p : String) :
    ∀ keys, Part001.compareObjFields lf rf p keys = DiffStatus.same ∨
            Part001.compareObjFields lf rf p keys = DiffStatus.modified := by
  intro keys
  induction keys with
  | nil => left; rw [Part001.compareObjFields]
  | cons k rest ih =>
      rw [Part001.compareObjFields]
      by_cases hk : k ∈ Part001.IGNORED_PROPERTIES
      · rw [if_pos hk]; exact ih
      · rw [if_neg hk]
        simp only [ne_eq]
        by_cases hc : Part001.compareValues (lookupField k lf) (lookupField k rf)
            (if p = "" then k else p ++ "." ++ k) = DiffStatus.same
        · rw [if_neg (by simp [hc])]
          exact ih
        · rw [if_pos hc]
          right; rfl

theorem compareArrElems_same_or_modified :
    ∀ (xs ys : List Json) (p : String) (i : Nat),
      Part001.compareArrElems xs ys p i = DiffStatus.same ∨
      Part001.compareArrElems xs ys p i = DiffStatus.modified := by
  intro xs
  induction xs with
  | nil => intro ys p i; left; rw [Part001.compareArrElems]
  | cons x xs ih =>
      intro ys p i
      cases ys with
      | nil => left; simp [Part001.compareArrElems]
      | cons y ys =>
          rw [Part001.compareArrElems]
          split
          · right; rfl
          · exact ih ys p (i + 1)

/-! ### Reduction lemmas for `Except` do-notation -/

theorem except_bind_ok {ε α β : Type} (a : α) (f : α → Except ε β) :
    (Except.ok a >>= f) = f a := rfl

theorem except_bind_error {ε α β : Type} (e : ε) (f : α → Except ε β) :
    ((Except.error e : Except ε α) >>= f) = Except.error e := rfl

theorem except_pure_eq {ε α : Type} (a : α) : (pure a : Except ε α) = Except.ok a := rfl

/-! ### What `analyzeXmlReport` writes and which keys it walks (claims C3, C4) -/

theorem processXmlEntries_keys :
    ∀ (entries : List (String × Convert.Jobs)) (ms : List (String × Convert.MergedJobs))
      (us : List (String × Convert.Jobs)),
      Convert.processXmlEntries entries = .ok (ms, us) →
      ms.map Prod.fst = (entries.map Prod.fst).filter (fun n => Convert.xmlTest n) := by
  intro entries
  induction entries with
  | nil =>
      intro ms us h
      rw [Convert.processXmlEntries] at h
      simp only [Except.ok.injEq, Prod.mk.injEq] at h
      obtain ⟨rfl, rfl⟩ := h
      simp
  | cons p rest ih =>
      obtain ⟨name, jobs⟩ := p
      intro ms us h
      rw [Convert.processXmlEntries] at h
      by_cases ht : Convert.xmlTest name
      · rw [if_pos ht] at h
        cases ha : Convert.analyzeJob jobs with
        | error e =>
            rw [ha, except_bind_error] at h
            cases h
        | ok pj =>
            obtain ⟨mj, uj⟩ := pj
            rw [ha, except_bind_ok] at h
            cases hrest : Convert.processXmlEntries rest with
            | error e =>
                rw [hrest] at h
                simp only [except_bind_error] at h
                cases h
            | ok prest =>
                obtain ⟨ms2, us2⟩ := prest
                rw [hrest] at h
                simp only [except_bind_ok, except_pure_eq, Except.ok.injEq,
                  Prod.mk.injEq] at h
                obtain ⟨rfl, rfl⟩ := h
                simp only [List.map_cons, List.filter_cons, ht, ih ms2 us2 hrest]
                simp
      · rw [if_neg ht] at h
        cases hrest : Convert.processXmlEntries rest with
        | error e =>
            rw [hrest] at h
            simp only [except_bind_error] at h
            cases h
        | ok prest =>
            obtain ⟨ms2, us2⟩ := prest
            rw [hrest] at h
            simp only [except_bind_ok, except_pure_eq, Except.ok.injEq,
              Prod.mk.injEq] at h
            obtain ⟨rfl, rfl⟩ := h
            simp only [List.map_cons, List.filter_cons]
            rw [if_neg (by simpa using ht)]
            exact ih ms2 us2 hrest

theorem analyzeXmlReportCore_spec (r : Convert.Report) (g : Convert.Graph)
    (mr : Convert.MergedReport) (upd : Convert.Report)
    (h : Convert.analyzeXmlReportCore r g = .ok (mr, upd)) :
    upd.key_info = some mr.entire_report ∧
    upd.graph = some (Convert.defaultEdges g) ∧
    upd.report = r.report ∧
    mr.entries.map Prod.fst = (r.entries.map Prod.fst).filter (fun n => Convert.xmlTest n) := by
  rw [Convert.analyzeXmlReportCore] at h
  cases hm : Convert.mergeOperation (some g) with
  | error e =>
      rw [hm, except_bind_error] at h
      cases h
  | ok rm =>
      rw [hm, except_bind_ok] at h
      cases hp : Convert.processXmlEntries r.entries with
      | error e =>
          rw [hp] at h
          simp only [except_bind_error] at h
          cases h
      | ok pr =>
          obtain ⟨ms, us⟩ := pr
          rw [hp] at h
          simp only [except_bind_ok, except_pure_eq, Except.ok.injEq, Prod.mk.injEq] at h
          obtain ⟨rfl, rfl⟩ := h
          exact ⟨rfl, rfl, rfl, processXmlEntries_keys r.entries ms us hp⟩

/-! ## Claim theorems -/

/-- A classifier call on two present values never yields `added`/`removed`
(`part_001` revision): below the absence checks everything is `same` or
`modified`. -/
theorem part001_some_some_cases (x y : Json) (p : String) :
    Part001.compareValues (some x) (some y) p = DiffStatus.same ∨
    Part001.compareValues (some x) (some y) p = DiffStatus.modified := by
  rcases x with _ | b1 | n1 | s1 | l1 | f1 <;> rcases y with _ | b2 | n2 | s2 | l2 | f2 <;>
    simp only [Part001.compareValues] <;>
    first
      | exact compareObjFields_same_or_modified _ _ p _
      | (split
         · right; rfl
         · exact compareArrElems_same_or_modified _ _ p 0)
      | (split
         · left; rfl
         · right; rfl)

theorem appTsx_some_some_cases (x y : Json) :
    AppTsx.compareValues (some x) (some y) ≠ DiffStatus.added ∧
    AppTsx.compareValues (some x) (some y) ≠ DiffStatus.removed := by
  by_cases he : jsonEqOpt (some x) (some y) = true
  · constructor <;> simp [AppTsx.compareValues, he]
  · constructor <;> simp [AppTsx.compareValues, he]

/-- C1 (counterexample): at a pair where `a` is absent and `b` is present,
both revisions of the classifier (`compareValues` in `part_001` and in
`App.tsx`) return `added` — not `removed`, as the claim states. -/
theorem claimC1_counterexample :
    Part001.compareValues none (some (Json.str "x")) "" = DiffStatus.added ∧
    AppTsx.compareValues none (some (Json.str "x")) = DiffStatus.added ∧
    DiffStatus.added ≠ DiffStatus.removed := by
  refine ⟨by simp [Part001.compareValues], by decide, by decide⟩

/-- C1 (amended): the directions are the opposite of the claim: `added` marks
left-absence and `removed` marks right-absence.  For `App.tsx`'s classifier,
`added` iff `a` is absent and `b` present and `removed` iff `b` is absent and
`a` present (both-absent compares equal and yields `same`); for `part_001`'s,
`added` iff `a` is absent (its left-absence test runs first, so also when
both sides are absent), and `removed` iff `a` is present and `b` absent. -/
theorem claimC1_amended (a b : Option Json) :
    (AppTsx.compareValues a b = DiffStatus.added ↔ a = none ∧ b ≠ none) ∧
    (AppTsx.compareValues a b = DiffStatus.removed ↔ b = none ∧ a ≠ none) ∧
    (∀ p, Part001.compareValues a b p = DiffStatus.added ↔ a = none) ∧
    (∀ p, Part001.compareValues a b p = DiffStatus.removed ↔ a ≠ none ∧ b = none) := by
  cases a with
  | none =>
      cases b with
      | none =>
          refine ⟨?_, ?_, ?_, ?_⟩ <;>
            simp [AppTsx.compareValues, Part001.compareValues, jsonEqOpt]
      | some y =>
          refine ⟨?_, ?_, ?_, ?_⟩ <;>
            simp [AppTsx.compareValues, Part001.compareValues, jsonEqOpt]
  | some x =>
      cases b with
      | none =>
          refine ⟨?_, ?_, ?_, ?_⟩ <;>
            simp [AppTsx.compareValues, Part001.compareValues, jsonEqOpt]
      | some y =>
          obtain ⟨ha1, ha2⟩ := appTsx_some_some_cases x y
          refine ⟨iff_of_false ha1 (by simp), iff_of_false ha2 (by simp), ?_, ?_⟩
          · intro p
            refine iff_of_false ?_ (by simp)
            rcases part001_some_some_cases x y p with h | h <;> simp [h]
          · intro p
            refine iff_of_false ?_ (by simp)
            rcases part001_some_some_cases x y p with h | h <;> simp [h]

/-- C2 (the code contradicts its own `Node.columns` union type): a node whose
columns come as an array of `Column` records is folded into a name→type
mapping, but a node whose columns are already a mapping — the second branch
of the declared union — makes `mergeOperation` throw a `TypeError`
(`for...of` over a non-iterable object) instead of passing the mapping
through, so `mergeGraph` is not exception-free on its declared input type. -/
theorem claimC2_code_evaluation :
    Convert.mergeOperation (some ⟨[⟨"1", "t",
        Convert.Columns.arr [⟨"a", "int"⟩, ⟨"b", "str"⟩]⟩], []⟩) =
      .ok ⟨[("t", ⟨"1", [("a", "int"), ("b", "str")]⟩)], []⟩ ∧
    Convert.mergeOperation (some ⟨[⟨"1", "t", Convert.Columns.map [("a", "int")]⟩], []⟩) =
      .error "TypeError: nodeColumns is not iterable" := by
  decide

/-- C3 (counterexample): normalization is not pure on its input: on the
report `{graph: {nodes: [], edges: [one edge without code_info]}}`,
`analyzeXmlReport` returns an updated report with `key_info` written and the
edge's `code_info` defaulted — it differs from the input. -/
theorem claimC3_counterexample :
    Convert.analyzeXmlReport
        ⟨some ⟨[], [⟨"op", "1", "2", "a", "b", "", none⟩]⟩, none, none, []⟩ =
      .ok
        (⟨⟨[], [("unknown-unknown",
            ⟨Convert.emptyCodeInfo, "op", ["a"], "1", ["b"], "2", ""⟩)]⟩, []⟩,
         ⟨some ⟨[], [⟨"op", "1", "2", "a", "b", "", some Convert.emptyCodeInfo⟩]⟩,
          some ⟨[], [("unknown-unknown",
            ⟨Convert.emptyCodeInfo, "op", ["a"], "1", ["b"], "2", ""⟩)]⟩,
          none, []⟩) ∧
    (⟨some ⟨[], [⟨"op", "1", "2", "a", "b", "", some Convert.emptyCodeInfo⟩]⟩,
      some ⟨[], [("unknown-unknown",
        ⟨Convert.emptyCodeInfo, "op", ["a"], "1", ["b"], "2", ""⟩)]⟩,
      none, []⟩ : Convert.Report) ≠
      ⟨some ⟨[], [⟨"op", "1", "2", "a", "b", "", none⟩]⟩, none, none, []⟩ := by
  decide

/-- C3 (amended): `analyzeXmlReport` returns an updated report reflecting its
in-place writes: with a top-level graph present, the update's `key_info` is
the merged `entire_report` and its `graph` is the merged graph with every
edge's missing `code_info` defaulted (the nested `report` field stays as it
was). -/
theorem claimC3_amended (r : Convert.Report) (g : Convert.Graph)
    (mr : Convert.MergedReport) (upd : Convert.Report)
    (hg : r.graph = some g)
    (h : Convert.analyzeXmlReport r = .ok (mr, upd)) :
    upd.key_info = some mr.entire_report ∧
    upd.graph = some (Convert.defaultEdges g) ∧
    upd.report = r.report := by
  rw [Convert.analyzeXmlReport, hg] at h
  obtain ⟨h1, h2, h3, _⟩ := analyzeXmlReportCore_spec r g mr upd h
  exact ⟨h1, h2, h3⟩

/-- Witness for C3 (amended) at the report `{graph: {nodes: [], edges: []}}`. -/
theorem claimC3_witness :
    (⟨some ⟨[], []⟩, none, none, []⟩ : Convert.Report).graph = some ⟨[], []⟩ ∧
    ((⟨some ⟨[], []⟩, some Convert.emptyMergedResult, none, []⟩ : Convert.Report).key_info =
        some (⟨Convert.emptyMergedResult, []⟩ : Convert.MergedReport).entire_report ∧
      (⟨some ⟨[], []⟩, some Convert.emptyMergedResult, none, []⟩ : Convert.Report).graph =
        some (Convert.defaultEdges ⟨[], []⟩) ∧
      (⟨some ⟨[], []⟩, some Convert.emptyMergedResult, none, []⟩ : Convert.Report).report =
        (⟨some ⟨[], []⟩, none, none, []⟩ : Convert.Report).report) :=
  ⟨rfl, claimC3_amended _ ⟨[], []⟩ _ _ rfl (by decide)⟩

/-- C4 (counterexample): a report with no top-level graph, no fallback, and
the `.xml`-passing key `"a.xml"` yields a merged report containing only the
empty `entire_report`: the `.xml` collection is not included, because the
function returns before the `.xml` loop. -/
theorem claimC4_counterexample :
    Convert.analyzeXmlReport ⟨none, none, none, [("a.xml", [])]⟩ =
      .ok (⟨Convert.emptyMergedResult, []⟩, ⟨none, none, none, [("a.xml", [])]⟩) ∧
    Convert.xmlTest "a.xml" = true ∧
    (⟨Convert.emptyMergedResult, []⟩ : Convert.MergedReport).entries.map Prod.fst ≠ ["a.xml"] := by
  decide

/-- C4 (amended): every `.xml`-matching top-level key is merged into the
returned report — but only when the report has a top-level graph or the
nested `report.report_result.graph` fallback; with neither, `analyzeXmlReport`
returns only an empty `entire_report` and skips the `.xml` keys entirely. -/
theorem claimC4_amended :
    (∀ (r : Convert.Report) (g : Convert.Graph) (mr : Convert.MergedReport)
        (upd : Convert.Report), r.graph = some g →
        Convert.analyzeXmlReport r = .ok (mr, upd) →
        mr.entries.map Prod.fst =
          (r.entries.map Prod.fst).filter (fun n => Convert.xmlTest n)) ∧
    (∀ (r : Convert.Report) (g : Convert.Graph) (mr : Convert.MergedReport)
        (upd : Convert.Report), r.graph = none → Convert.fallbackGraph r = some g →
        Convert.analyzeXmlReport r = .ok (mr, upd) →
        mr.entries.map Prod.fst =
          (r.entries.map Prod.fst).filter (fun n => Convert.xmlTest n)) ∧
    (∀ r : Convert.Report, r.graph = none → Convert.fallbackGraph r = none →
        Convert.analyzeXmlReport r = .ok (⟨Convert.emptyMergedResult, []⟩, r)) := by
  refine ⟨?_, ?_, ?_⟩
  · intro r g mr upd hg h
    rw [Convert.analyzeXmlReport, hg] at h
    exact (analyzeXmlReportCore_spec r g mr upd h).2.2.2
  · intro r g mr upd hg hf h
    rw [Convert.analyzeXmlReport, hg, hf] at h
    have := (analyzeXmlReportCore_spec _ g mr upd h).2.2.2
    simpa using this
  · intro r hg hf
    rw [Convert.analyzeXmlReport, hg, hf]

/-- Witness for C4 (amended) at a report with a graph and the keys
`"a.xml"` (matching) and `"meta"` (not matching). -/
theorem claimC4_witness :
    (⟨some ⟨[], []⟩, none, none, [("a.xml", []), ("meta", [])]⟩ : Convert.Report).graph =
      some ⟨[], []⟩ ∧
    (⟨Convert.emptyMergedResult, [("a.xml", [])]⟩ : Convert.MergedReport).entries.map Prod.fst =
      (((⟨some ⟨[], []⟩, none, none, [("a.xml", []), ("meta", [])]⟩ : Convert.Report)).entries.map
        Prod.fst).filter (fun n => Convert.xmlTest n) :=
  ⟨rfl, claimC4_amended.1 _ ⟨[], []⟩ _
    (⟨some ⟨[], []⟩, some Convert.emptyMergedResult, none,
      [("a.xml", []), ("meta", [])]⟩ : Convert.Report) rfl (by decide)⟩

/-- C5: two edges are coalesced into the same `MergedOperation` exactly when
their `(operation, source_entity, target_entity, code_info.file_path,
code_info.lineno)` tuples are equal, a missing `code_info` defaulting to the
empty record: the group stored under each key is precisely `specGroup` — the
source/target columns of all the key's edges in edge-encounter order, every
other field taken from the key's first edge. -/
theorem claimC5_grouping (edges : List Convert.Edge) (k : Convert.EdgeKey) :
    Convert.lookupKey k (Convert.groupEdges edges []) = specGroup edges k := by
  rw [groupEdges_lookup edges [] k]
  rfl

/-- C6: comparing any (well-formed) JSON document with itself under an empty
ignored-properties list yields `similarityPercentage = 100` and
`matchingProperties = totalProperties`. -/
theorem claimC6_self_similarity (x : Json) (hwf : jsonWF x = true) :
    (Compare.compareObjects x x []).similarityPercentage = 100 ∧
    (Compare.compareObjects x x []).matchingProperties =
      (Compare.compareObjects x x []).totalProperties := by
  have hm := countMatches_self [] x hwf
  have hround : Compare.round2 100 = 100 := by
    rw [Compare.round2]
    norm_num
  constructor
  · by_cases h0 : Compare.countProperties [] x = 0
    · simp [Compare.compareObjects, h0, hround]
    · have hq : ((Compare.countMatches [] x x : ℚ) /
          (Compare.countProperties [] x : ℚ) * 100) = 100 := by
        rw [hm, div_self (by exact_mod_cast h0)]
        norm_num
      simp [Compare.compareObjects, h0, hq, hround]
  · simp [Compare.compareObjects, hm]

/-- Witness for C6 at the concrete document `{"a": 1, "b": [null, "s"]}`. -/
theorem claimC6_witness :
    jsonWF (Json.obj [("a", Json.num 1), ("b", Json.arr [Json.null, Json.str "s"])]) = true ∧
    ((Compare.compareObjects
        (Json.obj [("a", Json.num 1), ("b", Json.arr [Json.null, Json.str "s"])])
        (Json.obj [("a", Json.num 1), ("b", Json.arr [Json.null, Json.str "s"])])
        []).similarityPercentage = 100 ∧
      (Compare.compareObjects
        (Json.obj [("a", Json.num 1), ("b", Json.arr [Json.null, Json.str "s"])])
        (Json.obj [("a", Json.num 1), ("b", Json.arr [Json.null, Json.str "s"])])
        []).matchingProperties =
      (Compare.compareObjects
        (Json.obj [("a", Json.num 1), ("b", Json.arr [Json.null, Json.str "s"])])
        (Json.obj [("a", Json.num 1), ("b", Json.arr [Json.null, Json.str "s"])])
        []).totalProperties) :=
  ⟨by decide, claimC6_self_similarity _ (by decide)⟩

/-- C7: the dataframe never overwrites an entry: every node of the graph
contributes its own entry, the keys are pairwise distinct, and two nodes
named `"orders"` produce the keys `"orders"` and `"orders_1"`, in first-seen
order. -/
theorem claimC7_dataframe_keys :
    (∀ (g : Convert.Graph) (r : Convert.MergedResult),
        Convert.mergeOperation (some g) = .ok r →
        (r.dataframe.map Prod.fst).Nodup ∧ r.dataframe.length = g.nodes.length) ∧
    (Convert.mergeOperation (some ⟨[⟨"1", "orders", Convert.Columns.arr []⟩,
        ⟨"2", "orders", Convert.Columns.arr []⟩], []⟩)).map
        (fun r => r.dataframe.map Prod.fst) = .ok ["orders", "orders_1"] := by
  constructor
  · intro g r h
    rw [Convert.mergeOperation] at h
    cases hb : Convert.buildDataframe g.nodes [] [] with
    | error e => rw [hb] at h; cases h
    | ok p =>
        obtain ⟨df, ed⟩ := p
        rw [hb] at h
        simp only [Except.ok.injEq] at h
        subst h
        obtain ⟨h1, h2⟩ := buildDataframe_spec g.nodes [] [] df ed hb (by simp)
        exact ⟨h1, by simpa using h2⟩
  · decide

/-- Witness for C7 at a one-node graph. -/
theorem claimC7_witness :
    Convert.mergeOperation (some ⟨[⟨"1", "a", Convert.Columns.arr []⟩], []⟩) =
      .ok ⟨[("a", ⟨"1", []⟩)], []⟩ ∧
    ((((⟨[("a", ⟨"1", []⟩)], []⟩ : Convert.MergedResult)).dataframe.map Prod.fst).Nodup ∧
      (⟨[("a", ⟨"1", []⟩)], []⟩ : Convert.MergedResult).dataframe.length =
        (⟨[⟨"1", "a", Convert.Columns.arr []⟩], []⟩ : Convert.Graph).nodes.length) :=
  ⟨by decide, claimC7_dataframe_keys.1 _ _ (by decide)⟩

/-- C8 (counterexample): with a single node whose `name` is the empty string,
the id `"n1"` IS recorded in the id→name table (with name `""`), yet the
operation key resolves both endpoints to `"unknown"` — JS `||` falls through
on the falsy empty string — so the key is `"unknown-unknown"`, not the
`""-""` (that is, `"-"`) the claim's resolution rule would give. -/
theorem claimC8_counterexample :
    Convert.buildDataframe [⟨"n1", "", Convert.Columns.arr []⟩] [] [] =
      .ok ([("", ⟨"n1", []⟩)], [("n1", "")]) ∧
    (Convert.mergeOperation (some ⟨[⟨"n1", "", Convert.Columns.arr []⟩],
        [⟨"join", "n1", "n1", "a", "b", "", none⟩]⟩)).map
        (fun r => r.operation.map Prod.fst) = .ok ["unknown-unknown"] ∧
    lookupField "n1" [("n1", "")] = some "" ∧
    "unknown-unknown" ≠ "" ++ "-" ++ "" := by
  decide

/-- C8 (amended): each operation key is `sourceName-targetName`, where a name
is the one recorded in the id→name table except that an id that is absent
from the table OR recorded with the empty-string name resolves to the literal
`"unknown"`; colliding keys are disambiguated with `_1`, `_2`, … so the final
keys are pairwise distinct, and re-keying preserves the merged records in
order. -/
theorem claimC8_amended :
    (∀ (ed : List (String × String)) (entity : String),
       (lookupField entity ed = none →
          Convert.resolveEntityName ed entity = "unknown") ∧
       (lookupField entity ed = some "" →
          Convert.resolveEntityName ed entity = "unknown") ∧
       (∀ n, lookupField entity ed = some n → n ≠ "" →
          Convert.resolveEntityName ed entity = n)) ∧
    (∀ (ed : List (String × String)) (ops : List (Convert.EdgeKey × Convert.MergedOperation)),
       ((Convert.rekeyOperations ed ops []).map Prod.fst).Nodup ∧
       (Convert.rekeyOperations ed ops []).map Prod.snd = ops.map Prod.snd) := by
  constructor
  · intro ed entity
    refine ⟨?_, ?_, ?_⟩
    · intro h
      rw [Convert.resolveEntityName, h]
    · intro h
      rw [Convert.resolveEntityName, h]
      simp
    · intro n h hn
      rw [Convert.resolveEntityName, h]
      simp [hn]
  · intro ed ops
    have h := rekeyOperations_spec ed ops [] (by simp)
    simpa using h

/-- Witness for C8 (amended): an id absent from an empty table resolves to
`"unknown"`. -/
theorem claimC8_witness :
    lookupField "x" ([] : List (String × String)) = none ∧
    Convert.resolveEntityName [] "x" = "unknown" :=
  ⟨rfl, (claimC8_amended.1 [] "x").1 rfl⟩

/-- C9: the latest `compareObjects` (src/lib/compare.ts) takes
`totalProperties` from `documentA` alone — it does not depend on
`documentB` — while the earlier revision (part_000) takes the max of both
sides' counts. -/
theorem claimC9_total_policy (a b : Json) (ig : List String) :
    (Compare.compareObjects a b ig).totalProperties = Compare.countProperties ig a ∧
    (∀ b2 : Json, (Compare.compareObjects a b ig).totalProperties =
      (Compare.compareObjects a b2 ig).totalProperties) ∧
    (Part000.compareObjects a b ig).totalProperties =
      max (Compare.countProperties ig a) (Compare.countProperties ig b) :=
  ⟨rfl, fun _ => rfl, rfl⟩

/-- C10: the two revisions of the classifier are not extensionally equal:
when both arguments are absent, `part_001`'s `compareValues` answers `added`
(its left-absence test runs first) while `App.tsx`'s answers `same` (its
deep-equality test runs first). -/
theorem claimC10_revision_divergence :
    Part001.compareValues none none "" = DiffStatus.added ∧
    AppTsx.compareValues none none = DiffStatus.same ∧
    Part001.compareValues none none "" ≠ AppTsx.compareValues none none := by
  have h1 : Part001.compareValues none none "" = DiffStatus.added := by
    simp [Part001.compareValues]
  refine ⟨h1, by decide, ?_⟩
  rw [h1]
  decide
